import Mathlib

/-!
Verification development for the ELD Trip Planner repository.

The frontend code (TypeScript/JavaScript) is shallowly embedded: JS values
that matter to the verified functions are modelled by `JSVal` (undefined,
number, string), JS numbers by `ℚ`, fallible evaluation (thrown `TypeError`
or `ReferenceError`) by `Except JSError`.  The backend Hours-of-Service
scheduler and midnight partitioner are not part of the repository snapshot;
they are modelled from the specification, and every such definition is
marked `Modelled from the spec:` in its doc comment.
-/

deriving instance DecidableEq for Except

/-- JS runtime errors relevant to the embedded code. -/
inductive JSError where
  | typeError
  | referenceError
deriving Repr, DecidableEq

/-- JS value: the subset of value shapes the embedded functions consume
(`undefined`, finite numbers modelled as `ℚ`, strings).  `NaN` never appears
as a stored `num`; the parsing functions return `Option ℚ` with `none`
standing for `NaN`. -/
inductive JSVal where
  | undef : JSVal
  | num : ℚ → JSVal
  | str : String → JSVal
deriving Repr, DecidableEq

/-- JS truthiness of a `JSVal` (`undefined` and `0` and `""` are falsy). -/
def jsTruthy : JSVal → Bool
  | .undef => false
  | .num q => q != 0
  | .str s => s != ""

/-- JS `a || b` on values: `a` when truthy, otherwise `b`. -/
def jsOr (a b : JSVal) : JSVal := if jsTruthy a then a else b

/-- Whitespace skipped by JS `parseFloat` / `parseInt` / `Number`. -/
def jsWs (c : Char) : Bool := c = ' ' || c = '\t' || c = '\n' || c = '\r'

/-- Powers of ten over `ℕ`, by plain recursion so terms reduce in the kernel. -/
def tenPowNat : ℕ → ℕ
  | 0 => 1
  | n + 1 => 10 * tenPowNat n

/-- Rational value of a parsed decimal literal: sign, mantissa digits value,
number of fraction digits, decimal exponent.  Built with `mkRat` on integers
(never `Rat.mul`/`Rat.div`, which are irreducible) so concrete parses
evaluate in the kernel. -/
def decValue (sg : ℤ) (mant : ℕ) (fracLen : ℕ) (e : ℤ) : ℚ :=
  let k : ℤ := e - fracLen
  if 0 ≤ k then mkRat (sg * (mant : ℤ) * (tenPowNat k.toNat : ℤ)) 1
  else mkRat (sg * (mant : ℤ)) (tenPowNat (-k).toNat)

/-- Numeric value of a list of decimal digit characters. -/
def digitsToNat (ds : List Char) : ℕ :=
  ds.foldl (fun a c => 10 * a + (c.toNat - 48)) 0

/-- Split a character list into its leading run of decimal digits and the rest. -/
def spanDigits (cs : List Char) : List Char × List Char :=
  (cs.takeWhile Char.isDigit, cs.dropWhile Char.isDigit)

/-- Leading sign of a JS numeric literal: returns the sign and the rest. -/
def signAfter (cs : List Char) : ℤ × List Char :=
  match cs with
  | [] => (1, [])
  | c :: r => if c = '+' then (1, r) else if c = '-' then (-1, r) else (1, c :: r)

/-- Mantissa of a JS decimal literal (`digits`, `digits.digits`, `.digits`):
returns the digit value of integer and fraction digits run together, the
number of fraction digits, and the unconsumed rest; `none` when no digit is
found. -/
def mantissaAfter (cs : List Char) : Option ((ℕ × ℕ) × List Char) :=
  let (ip, r1) := spanDigits cs
  match r1 with
  | '.' :: r2 =>
      let (fp, r3) := spanDigits r2
      if ip.isEmpty && fp.isEmpty then none
      else some ((digitsToNat (ip ++ fp), fp.length), r3)
  | _ => if ip.isEmpty then none else some ((digitsToNat ip, 0), r1)

/-- Optional exponent part `e`/`E` with optional sign; consumed only when at
least one digit follows, as in JS `parseFloat` (`"1e"` parses as `1`). -/
def expAfter (cs : List Char) : ℤ × List Char :=
  match cs with
  | 'e' :: r =>
      (match r with
       | '+' :: r2 =>
           let (ds, r3) := spanDigits r2
           if ds.isEmpty then (0, cs) else ((digitsToNat ds : ℤ), r3)
       | '-' :: r2 =>
           let (ds, r3) := spanDigits r2
           if ds.isEmpty then (0, cs) else (-(digitsToNat ds : ℤ), r3)
       | _ =>
           let (ds, r2) := spanDigits r
           if ds.isEmpty then (0, cs) else ((digitsToNat ds : ℤ), r2))
  | 'E' :: r =>
      (match r with
       | '+' :: r2 =>
           let (ds, r3) := spanDigits r2
           if ds.isEmpty then (0, cs) else ((digitsToNat ds : ℤ), r3)
       | '-' :: r2 =>
           let (ds, r3) := spanDigits r2
           if ds.isEmpty then (0, cs) else (-(digitsToNat ds : ℤ), r3)
       | _ =>
           let (ds, r2) := spanDigits r
           if ds.isEmpty then (0, cs) else ((digitsToNat ds : ℤ), r2))
  | _ => (0, cs)

/-- JS `parseFloat`: skip leading whitespace, optional sign, longest decimal
mantissa with optional exponent; `none` models `NaN`.  The `Infinity` literal
is omitted (it only arises for inputs whose validation outcome is the same
error branch as `NaN` in the code under verification). -/
def jsParseFloat (s : String) : Option ℚ :=
  let cs := s.toList.dropWhile jsWs
  let (sg, cs1) := signAfter cs
  match mantissaAfter cs1 with
  | none => none
  | some ((m, fl), cs2) =>
      let (e, _) := expAfter cs2
      some (decValue sg m fl e)

/-- Value of a hexadecimal digit character, if it is one. -/
def hexDigitVal (c : Char) : Option ℕ :=
  if '0' ≤ c && c ≤ '9' then some (c.toNat - 48)
  else if 'a' ≤ c && c ≤ 'f' then some (c.toNat - 87)
  else if 'A' ≤ c && c ≤ 'F' then some (c.toNat - 55)
  else none

/-- Leading run of hexadecimal digits and its value. -/
def spanHex (cs : List Char) : ℕ × ℕ × List Char :=
  match cs with
  | [] => (0, 0, [])
  | c :: r =>
      match hexDigitVal c with
      | none => (0, 0, c :: r)
      | some d =>
          let (n, v, rest) := spanHex r
          (n + 1, d * 16 ^ n + v, rest)

/-- Magnitude of a JS `parseInt` literal after the sign: a `0x`/`0X`
hexadecimal literal or the longest run of decimal digits; `none` models
`NaN`. -/
def intMagAfter (cs : List Char) : Option ℕ :=
  match cs with
  | '0' :: 'x' :: r =>
      let (n, v, _) := spanHex r
      if n = 0 then none else some v
  | '0' :: 'X' :: r =>
      let (n, v, _) := spanHex r
      if n = 0 then none else some v
  | _ =>
      let (ds, _) := spanDigits cs
      if ds.isEmpty then none else some (digitsToNat ds)

/-- JS `parseInt` with no radix argument: skip whitespace, optional sign,
then either a `0x`/`0X` hexadecimal literal or the longest run of decimal
digits; `none` models `NaN`. -/
def jsParseInt (s : String) : Option ℤ :=
  let cs := s.toList.dropWhile jsWs
  (intMagAfter (signAfter cs).2).map (fun v => (signAfter cs).1 * (v : ℤ))

/-- JS `ToNumber` on a string (used by `<`/`>` comparisons after coercion):
trim, empty means `0`, otherwise the whole string must be one numeric
literal; `none` models `NaN`.  Hexadecimal/binary/octal literal strings are
omitted: no theorem below depends on their value. -/
def jsStrToNumber (s : String) : Option ℚ :=
  let t := ((s.toList.dropWhile jsWs).reverse.dropWhile jsWs).reverse
  match t with
  | [] => some 0
  | _ =>
      let (sg, cs1) := signAfter t
      match mantissaAfter cs1 with
      | none => none
      | some ((m, fl), cs2) =>
          let (e, cs3) := expAfter cs2
          if cs3.isEmpty then some (decValue sg m fl e) else none

/-- JS `ToNumber` on a `JSVal` (`undefined` is `NaN`). -/
def jsToNumber : JSVal → Option ℚ
  | .undef => none
  | .num q => some q
  | .str s => jsStrToNumber s

/-! ## Trip form cycle-hours validation (TripForm.tsx `validateForm`, also part_004) -/

/-- Evaluation of `parseFloat(formData.current_cycle_hours?.toString() || '0')`
from `TripForm.tsx` (`validateForm`).  For `undefined` the optional chain
yields `undefined` (falsy), so `'0'` is parsed; a number stringifies and
re-parses to itself (JS `parseFloat(String(n)) = n` for finite `n`); an empty
string is falsy so `'0'` is parsed; any other string goes to `parseFloat`. -/
def cycleHoursParsed : JSVal → Option ℚ
  | .undef => jsParseFloat "0"
  | .num q => some q
  | .str s => if s = "" then jsParseFloat "0" else jsParseFloat s

/-- The cycle-hours clause of `validateForm` (TripForm.tsx lines 50-53;
the JS variant in part_004 lines 28-31 is the same condition): the field is
flagged with `'Must be a number between 0 and 70'` exactly when
`!formData.current_cycle_hours || isNaN(cycleHours) || cycleHours < 0 ||
cycleHours > 70`. -/
def cycleHoursError (v : JSVal) : Bool :=
  !(jsTruthy v) ||
    (match cycleHoursParsed v with
     | none => true
     | some h => decide (h < 0) || decide (70 < h))

/-- C1: for a form value that parses to a cycle-hours number h with
0 ≤ h ≤ 70, the claim says `validateForm` accepts it, and in particular
h = 0 is accepted.  The code disagrees at h = 0: the value `0` (the TSX
form's own initial value of the field) is JS-falsy, so
`!formData.current_cycle_hours` fires and the field is flagged with
`'Must be a number between 0 and 70'` even though it parses to 0 ∈ [0, 70];
the nearby value 35 is accepted, isolating the falsy-zero slip. -/
theorem validateForm_cycle_rejects_zero :
    cycleHoursParsed (JSVal.num 0) = some 0 ∧
    cycleHoursError (JSVal.num 0) = true ∧
    cycleHoursError (JSVal.num 35) = false := by
  decide

/-! ## tripService.ts `validateTripData` -/

/-- Request shape consumed by `tripService.validateTripData`; the declared
TypeScript type has the three locations as `string` and
`current_cycle_hours` as `number`, but the runtime function receives
arbitrary JS values, so each field is a `JSVal`. -/
structure TripPlanRequest where
  current_location : JSVal
  pickup_location : JSVal
  dropoff_location : JSVal
  current_cycle_hours : JSVal
deriving Repr, DecidableEq

/-- JS `String.prototype.trim`: strip whitespace from both ends. -/
def jsTrimStr (s : String) : String :=
  String.mk (((s.toList.dropWhile jsWs).reverse.dropWhile jsWs).reverse)

/-- JS `v?.trim()`: `undefined` short-circuits, a string trims, and a number
throws `TypeError` because `Number.prototype` has no `trim`. -/
def jsOptTrim : JSVal → Except JSError JSVal
  | .undef => .ok .undef
  | .str s => .ok (.str (jsTrimStr s))
  | .num _ => .error .typeError

/-- One iteration of the `requiredFields.forEach` loop in `validateTripData`:
`if (!data[field]?.trim()) errors.push(msg)`. -/
def requiredCheck (v : JSVal) (msg : String) (errs : List String) :
    Except JSError (List String) := do
  let t ← jsOptTrim v
  if jsTruthy t then pure errs else pure (errs ++ [msg])

/-- Result object of `validateTripData`. -/
structure ValidationResult where
  isValid : Bool
  errors : List String
deriving Repr, DecidableEq

/-- JS strict equality `===` restricted to the value shapes in play. -/
def jsStrictEq (a b : JSVal) : Bool := a == b

/-- `tripService.validateTripData` (tripService.ts lines 109-141): the
required-fields loop calls `?.trim()` on all four fields, then the range
check runs when `current_cycle_hours !== undefined` (the `<`/`>` compare
after `ToNumber` coercion, `NaN` comparisons being false), then the two
location-difference checks compare trimmed values with `===`. -/
def validateTripData (data : TripPlanRequest) : Except JSError ValidationResult := do
  let errs ← requiredCheck data.current_location "Current_location is required" []
  let errs ← requiredCheck data.pickup_location "Pickup_location is required" errs
  let errs ← requiredCheck data.dropoff_location "Dropoff_location is required" errs
  let errs ← requiredCheck data.current_cycle_hours "Current_cycle_hours is required" errs
  let errs :=
    if data.current_cycle_hours ≠ JSVal.undef then
      match jsToNumber data.current_cycle_hours with
      | none => errs
      | some h =>
          if h < 0 then errs ++ ["Current cycle hours must be positive"]
          else if 70 < h then errs ++ ["Current cycle hours cannot exceed 70"]
          else errs
    else errs
  let cur ← jsOptTrim data.current_location
  let pick ← jsOptTrim data.pickup_location
  let errs :=
    if jsStrictEq cur pick then
      errs ++ ["Current location and pickup location must be different"]
    else errs
  let cur2 ← jsOptTrim data.current_location
  let drop2 ← jsOptTrim data.dropoff_location
  let errs :=
    if jsStrictEq cur2 drop2 then
      errs ++ ["Current location and dropoff location must be different"]
    else errs
  pure ⟨errs.isEmpty, errs⟩

/-- C2: the claim says `validateTripData` is total on its declared input type
(three strings and a number) and never throws while checking the required
fields.  The code disagrees: the required-fields loop evaluates
`data['current_cycle_hours']?.trim()`, and `.trim()` on a number throws
`TypeError`, so any request with a numeric `current_cycle_hours` (the
declared type!) aborts the validation. -/
theorem validateTripData_throws_on_numeric_hours :
    validateTripData
      ⟨JSVal.str "Chicago, IL", JSVal.str "Indianapolis, IN",
       JSVal.str "Atlanta, GA", JSVal.num 5⟩ = Except.error JSError.typeError ∧
    validateTripData
      ⟨JSVal.str "Chicago, IL", JSVal.str "Indianapolis, IN",
       JSVal.str "Atlanta, GA", JSVal.str "5"⟩ =
      Except.ok ⟨true, []⟩ := by
  decide

/-! ## ELD log-sheet canvas renderer (part_006 `ELDLogSheet`) -/

/-- JS `String.prototype.split` on a single separator character. -/
def splitOnChar (sep : Char) : List Char → List (List Char)
  | [] => [[]]
  | c :: r =>
      let rest := splitOnChar sep r
      if c = sep then [] :: rest
      else
        match rest with
        | [] => [[c]]
        | h :: t => (c :: h) :: t

/-- Pieces of `timeStr.split(':')` as strings. -/
def timeParts (s : String) : List String :=
  (splitOnChar ':' s.toList).map String.mk

/-- JS `x || '0'` on an optionally-indexed string piece. -/
def strOrZero : Option String → String
  | none => "0"
  | some s => if s = "" then "0" else s

/-- Result object of `parseTime` (always an object, hence always JS-truthy). -/
structure TimeObj where
  hour : ℤ
  minute : ℤ
deriving Repr, DecidableEq

/-- JS falsiness test applied to a `parseTime` result: objects are never
falsy, so this is constantly `false`; it mirrors the `!startTime` /
`!endTime` guard in `drawLogEntries`. -/
def timeObjFalsy (_ : TimeObj) : Bool := false

/-- `parseTime` from part_006 lines 150-159: empty string short-circuits to
the zero object; otherwise split on `':'`, default each of the first two
pieces to `'0'` when missing or empty, `parseInt` each and map `NaN` (and
`0`) to `0` via `|| 0`. -/
def parseTime (timeStr : String) : TimeObj :=
  if timeStr = "" then ⟨0, 0⟩
  else
    let time := strOrZero (timeParts timeStr)[0]?
    let period := strOrZero (timeParts timeStr)[1]?
    ⟨(jsParseInt time).getD 0, (jsParseInt period).getD 0⟩

/-- `timeToSlot` from part_006 lines 161-166:
`Math.floor(hour) * 4 + Math.floor(minute / 15)`.  Its only call sites pass
the integer fields of `parseTime` results, so it is embedded on `ℤ`;
`Math.floor` of an integer quotient is floor division. -/
def timeToSlot (hour minute : ℤ) : ℤ :=
  hour * 4 + Int.fdiv minute 15

/-- The property (after the leading whitespace `parseInt` skips) of not
starting with a minus sign. -/
abbrev noLeadingMinus (t : String) : Prop :=
  (t.toList.dropWhile jsWs).head? ≠ some '-'

/-- The sign consumed by `parseInt`/`parseFloat` is positive unless the
input starts with `'-'`. -/
theorem signAfter_fst_pos (cs : List Char) (h : cs.head? ≠ some '-') :
    (signAfter cs).1 = 1 := by
  cases cs with
  | nil => rfl
  | cons c r =>
      by_cases hp : c = '+'
      · simp [signAfter, hp]
      · by_cases hm : c = '-'
        · exact absurd (by simp [hm]) h
        · simp [signAfter, hp, hm]

/-- `parseInt(t) || 0` is non-negative when `t` has no leading minus sign. -/
theorem jsParseInt_getD_nonneg (t : String) (h : noLeadingMinus t) :
    0 ≤ (jsParseInt t).getD 0 := by
  unfold jsParseInt
  have hs := signAfter_fst_pos (t.toList.dropWhile jsWs) h
  simp only [String.toList] at hs ⊢
  cases hmag : intMagAfter (signAfter (t.data.dropWhile jsWs)).2 with
  | none => simp [hmag]
  | some v => simp [hmag, hs]

/-- C10 counterexample: the claim states that for every input string the
parsed hour and minute are non-negative and `timeToSlot` on them is a
non-negative slot index.  The string `"-5:00"` parses to hour `-5` (JS
`parseInt('-5') = -5` is truthy, so `|| 0` keeps it), and the resulting slot
index is `-20 < 0`. -/
theorem parseTime_negative_hour_cex :
    parseTime "-5:00" = ⟨-5, 0⟩ ∧
    (parseTime "-5:00").hour < 0 ∧
    timeToSlot (parseTime "-5:00").hour (parseTime "-5:00").minute < 0 := by
  decide

/-- C10 (amended): `parseTime` always returns an object — never null or
undefined — so the falsy-result guard `if (!startTime || !endTime)` in
`drawLogEntries` is unreachable; a component that `parseInt` cannot parse is
mapped to 0; the hour (resp. minute) field is non-negative whenever its
component does not start with a minus sign; and `timeToSlot` of
non-negative hour and minute is a non-negative slot index. -/
theorem parseTime_total_guard_unreachable (s : String) :
    timeObjFalsy (parseTime s) = false ∧
    (s ≠ "" → jsParseInt (strOrZero (timeParts s)[0]?) = none → (parseTime s).hour = 0) ∧
    (s ≠ "" → noLeadingMinus (strOrZero (timeParts s)[0]?) → 0 ≤ (parseTime s).hour) ∧
    (s ≠ "" → noLeadingMinus (strOrZero (timeParts s)[1]?) → 0 ≤ (parseTime s).minute) ∧
    (0 ≤ (parseTime s).hour → 0 ≤ (parseTime s).minute →
      0 ≤ timeToSlot (parseTime s).hour (parseTime s).minute) := by
  refine ⟨rfl, ?_, ?_, ?_, ?_⟩
  · intro hne hnone
    simp [parseTime, hne, hnone]
  · intro hne hnm
    simp only [parseTime, if_neg hne]
    exact jsParseInt_getD_nonneg _ hnm
  · intro hne hnm
    simp only [parseTime, if_neg hne]
    exact jsParseInt_getD_nonneg _ hnm
  · intro hh hm
    have h4 : 0 ≤ (parseTime s).hour * 4 := by positivity
    have hdiv : 0 ≤ Int.fdiv (parseTime s).minute 15 := Int.fdiv_nonneg hm (by norm_num)
    unfold timeToSlot
    omega

/-- Witness for `parseTime_total_guard_unreachable` at the concrete input
`"08:30"`. -/
theorem parseTime_total_guard_unreachable_witness :
    timeObjFalsy (parseTime "08:30") = false ∧
    0 ≤ (parseTime "08:30").hour ∧
    0 ≤ (parseTime "08:30").minute ∧
    0 ≤ timeToSlot (parseTime "08:30").hour (parseTime "08:30").minute := by
  obtain ⟨h1, _, h3, h4, h5⟩ := parseTime_total_guard_unreachable "08:30"
  have hh := h3 (by decide) (by decide)
  have hm := h4 (by decide) (by decide)
  exact ⟨h1, hh, hm, h5 hh hm⟩

/-- Identifiers declared at the top level of the `ELDLogSheet` component body
in part_006 (props, constants, and the nested function declarations): this is
the scope chain available inside `drawLogEntries` beyond its own locals (the
module scope of the file only adds the React import and the component
itself). -/
def componentScopeIds : List String :=
  ["logSheet", "width", "height",
   "GRID_START_HOUR", "GRID_END_HOUR", "HOURS_PER_DAY", "GRID_ROWS",
   "cellWidth", "cellHeight", "timeSlots", "statusColors", "statusLabels",
   "getStatusColor", "getStatusLabel", "drawGrid", "drawLogEntries",
   "parseTime", "timeToSlot", "getActivityIndex", "drawLegend",
   "drawHeaderInfo", "downloadCanvas", "drawFullCanvas", "canvasRef",
   "isFullscreen", "setIsFullscreen", "scale", "setScale",
   "toggleFullscreen"]

/-- Resolution of the identifier `activities` inside `drawLogEntries`
(part_006 line 126).  `activities` is declared as a `const` local to
`drawGrid` (line 97) and nowhere else, so it is not on `drawLogEntries`'
scope chain and evaluating it throws `ReferenceError`. -/
def lookupActivities : Option (List String) :=
  if componentScopeIds.contains "activities" then some ["D", "O", "S", "M"]
  else none

/-- Log entry shape consumed by the renderer (types/index.ts `LogEntry`,
restricted to the fields part_006 reads). -/
structure LogEntry where
  start_time : String
  end_time : String
  duty_status : String
  remarks : Option String
deriving Repr, DecidableEq

/-- Log sheet shape consumed by the renderer: `log_entries` is optional in
the `LogSheet` type, hence an `Option`. -/
structure LogSheet where
  log_entries : Option (List LogEntry)
deriving Repr, DecidableEq

/-- `getStatusColor` from part_006 lines 47-49 (lookup in `statusColors`
with gray fallback). -/
def getStatusColor (status : String) : String :=
  if status = "off_duty" then "#10B981"
  else if status = "sleeper_berth" then "#4A90E2"
  else if status = "driving" then "#F59E0B"
  else if status = "on_duty_not_driving" then "#FFA500"
  else "#E5E7EB"

/-- `getActivityIndex` from part_006 lines 168-176. -/
def getActivityIndex (status : String) : ℕ :=
  if status = "driving" then 0
  else if status = "on_duty_not_driving" then 1
  else if status = "off_duty" then 2
  else if status = "sleeper_berth" then 3
  else 1

/-- JS `s.substring(0, n)`. -/
def substrTo (n : ℕ) (s : String) : String := String.mk (s.toList.take n)

/-- Abstract canvas output of the renderer: what was drawn, not pixels. -/
inductive DrawCmd where
  | emptyMsg
  | bar (startSlot endSlot : ℤ) (activityIndex actRows : ℕ) (color : String)
  | remark (txt : String)
deriving Repr, DecidableEq

/-- Processing of one log entry by `drawLogEntries` (part_006 lines 115-147):
parse both times, return early if either result is falsy (it never is, being
an object), compute the slots and the activity index, then evaluate
`activities.length` for the bar's vertical position — where the identifier
lookup fails — and finally draw the optional trimmed remark. -/
def drawEntry (e : LogEntry) : Except JSError (List DrawCmd) :=
  let startTime := parseTime e.start_time
  let endTime := parseTime e.end_time
  if timeObjFalsy startTime || timeObjFalsy endTime then Except.ok []
  else
    let startSlot := timeToSlot startTime.hour startTime.minute
    let endSlot := timeToSlot endTime.hour endTime.minute
    match lookupActivities with
    | none => Except.error JSError.referenceError
    | some acts =>
        Except.ok
          ([DrawCmd.bar startSlot endSlot (getActivityIndex e.duty_status)
              acts.length (getStatusColor e.duty_status)] ++
            (match e.remarks with
             | some r => if jsTrimStr r ≠ "" then [DrawCmd.remark (substrTo 30 r)] else []
             | none => []))

/-- `drawLogEntries` from part_006 lines 104-148: the empty-state branch for
a missing or empty `log_entries` list, otherwise the per-entry loop. -/
def drawLogEntries (sheet : LogSheet) : Except JSError (List DrawCmd) :=
  match sheet.log_entries with
  | none => Except.ok [DrawCmd.emptyMsg]
  | some [] => Except.ok [DrawCmd.emptyMsg]
  | some es => (es.mapM drawEntry).map List.flatten

/-- Every entry's processing fails at the `activities` lookup. -/
theorem drawEntry_reference_error (e : LogEntry) :
    drawEntry e = Except.error JSError.referenceError := rfl

/-- C9: the claim says `drawLogEntries` processes every entry of a non-empty
`log_entries` list and returns without throwing.  The code disagrees: the
vertical-position expression `(activityIndex / (activities.length - 1)) *
height` references `activities`, which is a `const` local to `drawGrid`, so
the first entry processed throws `ReferenceError` and a non-empty log sheet
is never drawn (the empty-state branch is the only one that completes). -/
theorem drawLogEntries_reference_error (sheet : LogSheet) (es : List LogEntry)
    (hes : sheet.log_entries = some es) (hne : es ≠ []) :
    drawLogEntries sheet = Except.error JSError.referenceError := by
  cases es with
  | nil => exact absurd rfl hne
  | cons e rest =>
      simp [drawLogEntries, hes, List.mapM_cons, drawEntry_reference_error,
        Except.map, Except.bind]
      rfl

/-- Witness for `drawLogEntries_reference_error`: a concrete one-entry log
sheet throws. -/
theorem drawLogEntries_reference_error_witness :
    drawLogEntries ⟨some [⟨"08:00", "09:30", "driving", none⟩]⟩ =
      Except.error JSError.referenceError :=
  drawLogEntries_reference_error _ _ rfl (by decide)

/-! ## Trip details view (part_007 `TripDetails`) -/

/-- Decimal digit characters of a natural number (empty for 0), with fuel
bounding the recursion; 64 digits covers every value in this development. -/
def natDigits (fuel n : ℕ) : List Char :=
  match fuel with
  | 0 => []
  | f + 1 => if n = 0 then [] else natDigits f (n / 10) ++ [Char.ofNat (48 + n % 10)]

/-- Decimal string of a natural number. -/
def natToStr (n : ℕ) : String := if n = 0 then "0" else String.mk (natDigits 64 n)

/-- Fraction digits of `num / den` (with `num < den`), truncated at the fuel
bound.  JS numbers are dyadic rationals, whose decimal expansions terminate,
so for values a JS program can hold the digits are exact up to the bound; no
theorem below depends on the digit string of any particular number. -/
def fracDigitChars (fuel num den : ℕ) : List Char :=
  match fuel with
  | 0 => []
  | f + 1 =>
      if num = 0 then []
      else Char.ofNat (48 + num * 10 / den) :: fracDigitChars f (num * 10 % den) den

/-- JS `String(n)` for a finite number: sign, integer part, and (when the
fraction is non-zero) a point and the fraction digits. -/
def numToString (q : ℚ) : String :=
  let sign := if q < 0 then "-" else ""
  let n := q.num.natAbs
  let d := q.den
  if n % d = 0 then sign ++ natToStr (n / d)
  else sign ++ natToStr (n / d) ++ "." ++ String.mk (fracDigitChars 64 (n % d) d)

/-- JS `v?.toString() || '0'` on a `JSVal`. -/
def jsToStringOrZero : JSVal → String
  | .undef => "0"
  | .num q => let s := numToString q; if s = "" then "0" else s
  | .str s => if s = "" then "0" else s

/-- JS `x || d` on an optionally-present string field. -/
def strOr (o : Option String) (d : String) : String :=
  match o with
  | some s => if s = "" then d else s
  | none => d

/-- Trip shape read by `TripDetails` (part_007 interface `Trip`, restricted
to the fields `prepareELDData` and the HOS summary read; all are optional or
loosely typed there, hence `JSVal`). -/
structure Trip where
  current_location : JSVal
  shipping_docs : JSVal
  total_distance : JSVal
  current_cycle_hours : JSVal
deriving Repr, DecidableEq

/-- Fetched log-sheet shape (part_007 interface `TripLog`). -/
structure TripLog where
  date : String
  driver_name : Option String
  carrier_name : Option String
  truck_number : Option String
  entries : Option (List LogEntry)
deriving Repr, DecidableEq

/-- Object built by `prepareELDData` for the `ELDLogSheet` child. -/
structure ELDData where
  date : String
  driver : String
  carrier : String
  truckNumber : String
  homeTerminal : JSVal
  shippingDocs : JSVal
  totalMiles : String
  entries : List LogEntry
deriving Repr, DecidableEq

/-- `prepareELDData` from part_007 lines 159-186.  With fetched logs it
reads the first log sheet; with no logs it builds the mock fallback whose
`date` field is `new Date().toLocaleDateString('en-US')` — a wall-clock
read, modelled by the explicit `todayStr` parameter.  (`logSheet.entries ||
[]` keeps an empty array, arrays being truthy, so the `Option.getD` is
exact.) -/
def prepareELDData (trip : Trip) (tripLogs : List TripLog) (todayStr : String) : ELDData :=
  match tripLogs with
  | logSheet :: _ =>
      { date := logSheet.date
        driver := strOr logSheet.driver_name "Driver"
        carrier := strOr logSheet.carrier_name "Carrier"
        truckNumber := strOr logSheet.truck_number ""
        homeTerminal := trip.current_location
        shippingDocs := jsOr trip.shipping_docs (JSVal.str "")
        totalMiles := jsToStringOrZero trip.total_distance
        entries := logSheet.entries.getD [] }
  | [] =>
      { date := todayStr
        driver := "Driver"
        carrier := "Carrier"
        truckNumber := ""
        homeTerminal := trip.current_location
        shippingDocs := JSVal.str ""
        totalMiles := jsToStringOrZero trip.total_distance
        entries := [] }

/-- C4 counterexample: the claim says the ELD display data is a
deterministic function of the trip and its fetched logs, with no wall-clock
dependence.  With no fetched logs the fallback object's `date` field is the
current date, so two runs of the same pipeline on the same trip and log
state differ when the day changes. -/
theorem prepareELDData_wall_clock_cex :
    prepareELDData ⟨JSVal.str "Chicago, IL", JSVal.undef, JSVal.num 500, JSVal.num 10⟩ []
        "1/1/2024" ≠
      prepareELDData ⟨JSVal.str "Chicago, IL", JSVal.undef, JSVal.num 500, JSVal.num 10⟩ []
        "1/2/2024" := by
  decide

/-- C4 (amended): whenever at least one fetched log sheet is present,
`prepareELDData` is a deterministic function of the trip and its logs — the
two clock reads are not consulted; only the empty-logs mock fallback reads
the wall clock for its `date` field. -/
theorem prepareELDData_deterministic_on_logs (trip : Trip) (logs : List TripLog)
    (t1 t2 : String) (h : logs ≠ []) :
    prepareELDData trip logs t1 = prepareELDData trip logs t2 := by
  cases logs with
  | nil => exact absurd rfl h
  | cons l ls => rfl

/-- Witness for `prepareELDData_deterministic_on_logs` at a concrete trip
and a one-sheet log state. -/
theorem prepareELDData_deterministic_on_logs_witness :
    prepareELDData ⟨JSVal.str "Chicago, IL", JSVal.undef, JSVal.num 500, JSVal.num 10⟩
        [⟨"2024-01-20", some "Jo", none, none, none⟩] "1/1/2024" =
      prepareELDData ⟨JSVal.str "Chicago, IL", JSVal.undef, JSVal.num 500, JSVal.num 10⟩
        [⟨"2024-01-20", some "Jo", none, none, none⟩] "1/2/2024" :=
  prepareELDData_deterministic_on_logs _ _ _ _ (by decide)

/-! ## Hours of Service summary (part_007 lines 319-339) -/

/-- Numeric denotation of the text React renders for `{v}`: a number renders
via `String(n)`, which JS `parseFloat` round-trips exactly for finite
numbers; a string renders itself and denotes its `parseFloat`; `undefined`
renders empty text (no numeric denotation). -/
def renderedNumeric : JSVal → Option ℚ
  | .num q => some q
  | .str s => jsParseFloat s
  | .undef => none

/-- The displayed `Cycle Remaining` value,
`70 - parseFloat(String(trip.current_cycle_hours || '0'))` (part_007 line
336): `String` of a finite number re-parses to itself, a string parses with
`parseFloat`; `none` models the `NaN` display. -/
def cycleRemaining (v : JSVal) : Option ℚ :=
  match jsOr v (JSVal.str "0") with
  | .num q => some (70 - q)
  | .str s => (jsParseFloat s).map (fun h => 70 - h)
  | .undef => none

/-- A JS value that parses to the number `h`: it is the number itself, or a
string whose `parseFloat` is `h`. -/
def parsesToNum (v : JSVal) (h : ℚ) : Prop :=
  v = JSVal.num h ∨ ∃ s, v = JSVal.str s ∧ jsParseFloat s = some h

/-- C8: for every trip whose `current_cycle_hours` parses to a number h, the
Hours of Service summary displays `Cycle Used` equal to h (the raw field is
rendered) and `Cycle Remaining` equal to 70 - h, treating the 70-hour cycle
as a single monotonically-consumed budget. -/
theorem hos_summary_cycle_used_remaining (v : JSVal) (h : ℚ)
    (hp : parsesToNum v h) :
    renderedNumeric v = some h ∧ cycleRemaining v = some (70 - h) := by
  rcases hp with rfl | ⟨s, rfl, hs⟩
  · refine ⟨rfl, ?_⟩
    by_cases h0 : h = 0
    · subst h0
      show cycleRemaining (JSVal.num 0) = some (70 - 0)
      norm_num [cycleRemaining, jsOr, jsTruthy,
        show jsParseFloat "0" = some 0 from rfl]
    · simp [cycleRemaining, jsOr, jsTruthy, h0]
  · have hsne : s ≠ "" := by
      intro he
      subst he
      rw [show jsParseFloat "" = none from rfl] at hs
      cases hs
    refine ⟨hs, ?_⟩
    simp [cycleRemaining, jsOr, jsTruthy, hsne, hs]

/-- Witness for `hos_summary_cycle_used_remaining` at the number 5. -/
theorem hos_summary_cycle_used_remaining_witness :
    renderedNumeric (JSVal.num 5) = some 5 ∧
      cycleRemaining (JSVal.num 5) = some (70 - 5) :=
  hos_summary_cycle_used_remaining (JSVal.num 5) 5 (Or.inl rfl)

/-! ## Hours-of-Service core (modelled from the spec)

The backend Duty Scheduler, Cycle-Hour Accountant, Midnight Partitioner and
Violation Reporter are not part of the repository snapshot (only the
frontend is under src/); the definitions in this section are modelled from
the specification, sections 3, 4.1, 4.2, 4.3, 4.4 and 6.  Times are integer
seconds (the spec requires one-second internal accuracy) and distances are
integer miles. -/

/-- Named regulatory constants (spec section 9: 11h/14h/70h/30-min/10h/1000mi,
plus the 8-hour break trigger and the fixed 1-hour pickup/dropoff stop). -/
def maxDrivingSec : ℤ := 11 * 3600

/-- On-duty window cap per duty day, in seconds. -/
def maxOnDutySec : ℤ := 14 * 3600

/-- Rolling 8-day cycle budget, in seconds. -/
def maxCycleSec : ℤ := 70 * 3600

/-- Driving time since the last qualifying break that forces a break. -/
def breakAfterSec : ℤ := 8 * 3600

/-- Duration of the mandatory break. -/
def breakDurSec : ℤ := 30 * 60

/-- Duration of the daily reset (10-hour off-duty period). -/
def dailyResetSec : ℤ := 10 * 3600

/-- Fixed pickup/dropoff stop duration (1 hour). -/
def stopDurSec : ℤ := 3600

/-- Fixed fuel stop duration (30 minutes). -/
def fuelStopDurSec : ℤ := 30 * 60

/-- Cumulative distance since the last fuel stop that triggers a fuel stop. -/
def fuelDistMiles : ℤ := 1000

/-- Modelled from the spec: `DutyState` enumeration (spec section 3). -/
inductive DutyState where
  | driving
  | on_duty_not_driving
  | off_duty
  | sleeper_berth
deriving Repr, DecidableEq

/-- Modelled from the spec: the `kind` tag of a route segment (spec
section 3). -/
inductive SegKind where
  | transit
  | pickup
  | dropoff
deriving Repr, DecidableEq

/-- Modelled from the spec: `RouteSegment` (spec section 3) — start/end
cumulative distance (miles) and cumulative drive time (seconds), and the
kind tag. -/
structure RouteSegment where
  startDist : ℤ
  endDist : ℤ
  startTime : ℤ
  endTime : ℤ
  kind : SegKind
deriving Repr, DecidableEq

/-- Modelled from the spec: `DutyInterval` (spec section 3) — half-open
`[start, stop)` in seconds, with state and remark. -/
structure DutyInterval where
  start : ℤ
  stop : ℤ
  state : DutyState
  remark : String
deriving Repr, DecidableEq

/-- Modelled from the spec: `CycleBudget` (spec section 3), in seconds. -/
structure CycleBudget where
  cycleUsed : ℤ
  drivenToday : ℤ
  onDutyToday : ℤ
  drivenSinceBreak : ℤ
deriving Repr, DecidableEq

/-- Modelled from the spec: a recorded violation (spec section 4.4), here
the non-fatal cycle-hour exhaustion at a given simulated time. -/
inductive Violation where
  | cycleViolation (atTime : ℤ)
deriving Repr, DecidableEq

/-- Scheduler state threaded through one planning call (spec section 5: all
state is per-request). -/
structure SchedState where
  clock : ℤ
  budget : CycleBudget
  distSinceFuel : ℤ
  fuelStops : List ℤ
  intervals : List DutyInterval
  violations : List Violation
deriving Repr, DecidableEq

/-- Emit one duty interval `[clock, clock + d)` and advance the clock;
non-positive durations are skipped without emitting degenerate intervals
(spec section 4.2, zero-length segment edge case). -/
def emitInterval (st : SchedState) (d : ℤ) (s : DutyState) (r : String) : SchedState :=
  if d ≤ 0 then st
  else
    { st with
      clock := st.clock + d
      intervals := ⟨st.clock, st.clock + d, s, r⟩ :: st.intervals }

/-- Accountant `consumeDriving` (spec section 4.1): driving seconds count
against all four counters. -/
def addDriving (b : CycleBudget) (d : ℤ) : CycleBudget :=
  ⟨b.cycleUsed + d, b.drivenToday + d, b.onDutyToday + d, b.drivenSinceBreak + d⟩

/-- Accountant `consumeOnDuty` (spec section 4.1): on-duty-not-driving
seconds count against the cycle and the on-duty window only. -/
def addOnDuty (b : CycleBudget) (d : ℤ) : CycleBudget :=
  ⟨b.cycleUsed + d, b.drivenToday, b.onDutyToday + d, b.drivenSinceBreak⟩

/-- Emit a driving interval and feed the consumed seconds to the
Accountant. -/
def emitDriving (st : SchedState) (d : ℤ) : SchedState :=
  let s := emitInterval st d .driving "Driving"
  { s with budget := if d ≤ 0 then s.budget else addDriving s.budget d }

/-- Emit an on-duty-not-driving stop and feed the Accountant. -/
def emitOnDutyStop (st : SchedState) (d : ℤ) (r : String) : SchedState :=
  let s := emitInterval st d .on_duty_not_driving r
  { s with budget := if d ≤ 0 then s.budget else addOnDuty s.budget d }

/-- Accountant `needsBreak` (spec section 4.1). -/
def needsBreak (b : CycleBudget) : Bool := breakAfterSec ≤ b.drivenSinceBreak

/-- Accountant `needsDailyReset` (spec section 4.1): either daily cap
reached. -/
def needsDailyReset (b : CycleBudget) : Bool :=
  maxDrivingSec ≤ b.drivenToday || maxOnDutySec ≤ b.onDutyToday

/-- Accountant `needsCycleReset` (spec section 4.1). -/
def needsCycleReset (b : CycleBudget) : Bool := maxCycleSec ≤ b.cycleUsed

/-- Accountant `applyBreak` (spec section 4.1/4.2): a fixed 30-minute
off-duty break; resets the driving-since-break counter. -/
def applyBreak (st : SchedState) : SchedState :=
  let s := emitInterval st breakDurSec .off_duty "30-minute break"
  { s with budget := { s.budget with drivenSinceBreak := 0 } }

/-- Accountant `applyDailyReset` (spec section 4.2): a 10-hour off-duty
interval; zeroes the daily counters without touching the cycle budget. -/
def applyDailyReset (st : SchedState) : SchedState :=
  let s := emitInterval st dailyResetSec .off_duty "Daily reset (10-hour off duty)"
  { s with
    budget := { s.budget with drivenToday := 0, onDutyToday := 0, drivenSinceBreak := 0 } }

/-- Cycle exhaustion (spec section 4.2): recorded as a violation, not an
exception; the scheduler continues as if an implicit restart occurred. -/
def applyCycleRestart (st : SchedState) : SchedState :=
  { st with
    budget := { st.budget with cycleUsed := 0 }
    violations := .cycleViolation st.clock :: st.violations }

/-- Break trigger check-and-apply. -/
def applyBreakIfNeeded (st : SchedState) : SchedState :=
  if needsBreak st.budget then applyBreak st else st

/-- Daily-reset trigger check-and-apply. -/
def applyDailyResetIfNeeded (st : SchedState) : SchedState :=
  if needsDailyReset st.budget then applyDailyReset st else st

/-- Cycle trigger check-and-apply. -/
def applyCycleRestartIfNeeded (st : SchedState) : SchedState :=
  if needsCycleReset st.budget then applyCycleRestart st else st

/-- Regulatory triggers in their fixed priority order (spec section 4.1:
break, then daily reset, then cycle violation). -/
def applyStops (st : SchedState) : SchedState :=
  applyCycleRestartIfNeeded (applyDailyResetIfNeeded (applyBreakIfNeeded st))

/-- Remaining seconds until the next regulatory trigger fires. -/
def triggerMargin (b : CycleBudget) : ℤ :=
  min (min (breakAfterSec - b.drivenSinceBreak) (maxDrivingSec - b.drivenToday))
    (min (maxOnDutySec - b.onDutyToday) (maxCycleSec - b.cycleUsed))

/-- Drive through one segment (spec section 4.2 algorithm): repeatedly
consume the smaller of the remaining segment time and the time to the next
trigger as a driving interval, applying any pending regulatory stops first.
The loop is bounded by a fuel parameter: every iteration consumes at least
one second, so `remaining.toNat + 1` steps always complete the segment;
on fuel exhaustion (unreachable with that bound) the remainder is emitted
as one driving interval, which keeps the interval chain intact. -/
def driveLoop : ℕ → SchedState → ℤ → SchedState
  | 0, st, remaining => emitDriving st remaining
  | f + 1, st, remaining =>
      if remaining ≤ 0 then st
      else
        let st1 := applyStops st
        let chunk := min remaining (triggerMargin st1.budget)
        driveLoop f (emitDriving st1 chunk) (remaining - chunk)

/-- Segment-boundary stop trigger (spec section 4.2, trigger 1): a tagged
pickup or dropoff boundary inserts a fixed 1-hour on-duty stop. -/
def boundaryStop (st : SchedState) (k : SegKind) : SchedState :=
  match k with
  | .pickup => emitOnDutyStop st stopDurSec "Pickup (1 hour)"
  | .dropoff => emitOnDutyStop st stopDurSec "Dropoff (1 hour)"
  | .transit => st

/-- Fuel trigger at a segment boundary (spec section 4.2, trigger 1): once
cumulative distance since the last fuel stop reaches 1000 miles, insert the
fixed 30-minute on-duty fuel stop at this boundary (never mid-segment) and
reset the distance counter. -/
def fuelCheck (st : SchedState) (seg : RouteSegment) : SchedState :=
  if fuelDistMiles ≤ st.distSinceFuel + (seg.endDist - seg.startDist) then
    let s := emitOnDutyStop st fuelStopDurSec "Fuel stop (30 minutes)"
    { s with distSinceFuel := 0, fuelStops := seg.endDist :: s.fuelStops }
  else { st with distSinceFuel := st.distSinceFuel + (seg.endDist - seg.startDist) }

/-- Process one route segment (spec section 4.2): drive its time, then
handle the boundary stops. -/
def processSegment (st : SchedState) (seg : RouteSegment) : SchedState :=
  fuelCheck
    (boundaryStop
      (driveLoop ((seg.endTime - seg.startTime).toNat + 1) st (seg.endTime - seg.startTime))
      seg.kind)
    seg

/-- Per-segment structural check: non-negative length in both distance and
time, and chaining of cumulative values to the next segment. -/
def chainOk : List RouteSegment → Bool
  | [] => true
  | [s] => decide (s.startDist ≤ s.endDist) && decide (s.startTime ≤ s.endTime)
  | s :: s' :: rest =>
      decide (s.startDist ≤ s.endDist) && decide (s.startTime ≤ s.endTime) &&
      decide (s'.startDist = s.endDist) && decide (s'.startTime = s.endTime) &&
      chainOk (s' :: rest)

/-- Modelled from the spec: route input contract (spec section 6) — ordered
non-empty list, cumulative values monotone and starting at zero, exactly one
pickup and one dropoff boundary with the pickup first. -/
def validRoute (r : List RouteSegment) : Bool :=
  match r with
  | [] => false
  | s0 :: _ =>
      decide (s0.startDist = 0) && decide (s0.startTime = 0) && chainOk r &&
      decide (r.countP (fun s => s.kind == SegKind.pickup) = 1) &&
      decide (r.countP (fun s => s.kind == SegKind.dropoff) = 1) &&
      decide (r.findIdx (fun s => s.kind == SegKind.pickup) <
        r.findIdx (fun s => s.kind == SegKind.dropoff))

/-- Modelled from the spec: the sole error class that aborts planning (spec
section 4.4/7: malformed route input is fatal). -/
inductive PlanError where
  | malformedRoute
deriving Repr, DecidableEq

/-- Modelled from the spec: `TripPlanResult` (spec section 3) — the interval
timeline, the inserted fuel-stop mile marks, and the recorded violations,
all in chronological order. -/
structure TripPlanResult where
  intervals : List DutyInterval
  fuelStops : List ℤ
  violations : List Violation
deriving Repr, DecidableEq

/-- Fresh per-request state (spec section 5): the supplied starting cycle
seconds and start timestamp. -/
def initState (h0sec t0 : ℤ) : SchedState := ⟨t0, ⟨h0sec, 0, 0, 0⟩, 0, [], [], []⟩

/-- Modelled from the spec: the whole planning pipeline (spec sections 2,
4.2, 4.4): malformed input fails immediately with no partial result; any
valid route produces a complete `TripPlanResult`, with violations attached
as data. -/
def planTrip (route : List RouteSegment) (h0sec t0 : ℤ) : Except PlanError TripPlanResult :=
  if validRoute route then
    let st := route.foldl processSegment (initState h0sec t0)
    .ok ⟨st.intervals.reverse, st.fuelStops.reverse, st.violations.reverse⟩
  else .error .malformedRoute


/-- The intervals `l` form a contiguous chain from time `t` to time `e`:
each interval starts where its predecessor stopped, is non-degenerate, and
the chain ends at `e`. -/
def ChainFrom : ℤ → List DutyInterval → ℤ → Prop
  | t, [], e => e = t
  | t, i :: rest, e => i.start = t ∧ t < i.stop ∧ ChainFrom i.stop rest e

theorem chainFrom_nil {t e : ℤ} : ChainFrom t [] e ↔ e = t := Iff.rfl

theorem chainFrom_cons {t e : ℤ} {i : DutyInterval} {l : List DutyInterval} :
    ChainFrom t (i :: l) e ↔ i.start = t ∧ t < i.stop ∧ ChainFrom i.stop l e :=
  Iff.rfl

/-- Chain property for the scheduler's reverse-ordered accumulator. -/
def RevChain : ℤ → List DutyInterval → ℤ → Prop
  | t0, [], c => c = t0
  | t0, i :: rest, c => i.stop = c ∧ i.start < i.stop ∧ RevChain t0 rest i.start

theorem revChain_nil {t0 c : ℤ} : RevChain t0 [] c ↔ c = t0 := Iff.rfl

theorem revChain_cons {t0 c : ℤ} {i : DutyInterval} {l : List DutyInterval} :
    RevChain t0 (i :: l) c ↔ i.stop = c ∧ i.start < i.stop ∧ RevChain t0 l i.start :=
  Iff.rfl

theorem chainFrom_append (xs ys : List DutyInterval) (t e : ℤ) :
    ChainFrom t (xs ++ ys) e ↔ ∃ m, ChainFrom t xs m ∧ ChainFrom m ys e := by
  induction xs generalizing t with
  | nil =>
      simp only [List.nil_append, chainFrom_nil]
      constructor
      · intro h
        exact ⟨t, rfl, h⟩
      · rintro ⟨m, rfl, h⟩
        exact h
  | cons i xs ih =>
      simp only [List.cons_append, chainFrom_cons, ih]
      constructor
      · rintro ⟨h1, h2, m, h3, h4⟩
        exact ⟨m, ⟨h1, h2, h3⟩, h4⟩
      · rintro ⟨m, ⟨h1, h2, h3⟩, h4⟩
        exact ⟨h1, h2, m, h3, h4⟩

theorem revChain_iff_chainFrom (l : List DutyInterval) (t0 c : ℤ) :
    RevChain t0 l c ↔ ChainFrom t0 l.reverse c := by
  induction l generalizing c with
  | nil => simp [revChain_nil, chainFrom_nil]
  | cons i rest ih =>
      simp only [revChain_cons, List.reverse_cons, chainFrom_append,
        chainFrom_cons, chainFrom_nil, ih]
      constructor
      · rintro ⟨h1, h2, h3⟩
        exact ⟨i.start, h3, rfl, by omega, by omega⟩
      · rintro ⟨m, h3, rfl, h2, h1⟩
        exact ⟨by omega, h2, h3⟩

theorem chainFrom_le (l : List DutyInterval) (t e : ℤ) (h : ChainFrom t l e) :
    t ≤ e := by
  induction l generalizing t with
  | nil => rw [chainFrom_nil] at h; omega
  | cons i rest ih =>
      obtain ⟨h1, h2, h3⟩ := chainFrom_cons.1 h
      have := ih i.stop h3
      omega

theorem chainFrom_mem_bounds (l : List DutyInterval) (t e : ℤ)
    (h : ChainFrom t l e) : ∀ j ∈ l, t ≤ j.start ∧ j.start < j.stop ∧ j.stop ≤ e := by
  induction l generalizing t with
  | nil => intro j hj; cases hj
  | cons i rest ih =>
      obtain ⟨h1, h2, h3⟩ := chainFrom_cons.1 h
      intro j hj
      rcases List.mem_cons.1 hj with rfl | hj
      · exact ⟨by omega, by omega, chainFrom_le rest _ _ h3⟩
      · have := ih i.stop h3 j hj
        omega

theorem chainFrom_coverage (l : List DutyInterval) (t e : ℤ)
    (h : ChainFrom t l e) (x : ℤ) (hx1 : t ≤ x) (hx2 : x < e) :
    ∃! j, j ∈ l ∧ j.start ≤ x ∧ x < j.stop := by
  induction l generalizing t with
  | nil => rw [chainFrom_nil] at h; omega
  | cons i rest ih =>
      obtain ⟨h1, h2, h3⟩ := chainFrom_cons.1 h
      by_cases hx : x < i.stop
      · refine ⟨i, ⟨List.mem_cons_self i rest, by omega, hx⟩, ?_⟩
        rintro j ⟨hj, hjx1, hjx2⟩
        rcases List.mem_cons.1 hj with rfl | hj
        · rfl
        · have := (chainFrom_mem_bounds rest _ _ h3 j hj).1
          omega
      · push_neg at hx
        obtain ⟨j, ⟨hj, hjc⟩, hju⟩ := ih i.stop h3 hx
        refine ⟨j, ⟨List.mem_cons_of_mem i hj, hjc⟩, ?_⟩
        rintro j' ⟨hj', hj'c⟩
        rcases List.mem_cons.1 hj' with rfl | hj'
        · omega
        · exact hju j' ⟨hj', hj'c⟩

/-- The scheduler invariant: the accumulated intervals chain from the trip
start to the current clock. -/
def IntervalsInv (t0 : ℤ) (st : SchedState) : Prop :=
  RevChain t0 st.intervals st.clock

theorem inv_emitInterval (t0 : ℤ) (st : SchedState) (d : ℤ) (s : DutyState)
    (r : String) (h : IntervalsInv t0 st) :
    IntervalsInv t0 (emitInterval st d s r) := by
  unfold IntervalsInv emitInterval at *
  by_cases hd : d ≤ 0
  · simpa [hd] using h
  · simp only [if_neg hd]
    refine revChain_cons.2 ⟨rfl, ?_, h⟩
    show st.clock < st.clock + d
    omega

theorem inv_emitDriving (t0 : ℤ) (st : SchedState) (d : ℤ)
    (h : IntervalsInv t0 st) : IntervalsInv t0 (emitDriving st d) :=
  inv_emitInterval t0 st d .driving "Driving" h

theorem inv_emitOnDutyStop (t0 : ℤ) (st : SchedState) (d : ℤ) (r : String)
    (h : IntervalsInv t0 st) : IntervalsInv t0 (emitOnDutyStop st d r) :=
  inv_emitInterval t0 st d .on_duty_not_driving r h

theorem inv_applyBreak (t0 : ℤ) (st : SchedState) (h : IntervalsInv t0 st) :
    IntervalsInv t0 (applyBreak st) :=
  inv_emitInterval t0 st breakDurSec .off_duty "30-minute break" h

theorem inv_applyDailyReset (t0 : ℤ) (st : SchedState) (h : IntervalsInv t0 st) :
    IntervalsInv t0 (applyDailyReset st) :=
  inv_emitInterval t0 st dailyResetSec .off_duty "Daily reset (10-hour off duty)" h

theorem inv_applyCycleRestart (t0 : ℤ) (st : SchedState) (h : IntervalsInv t0 st) :
    IntervalsInv t0 (applyCycleRestart st) := h

/-- The invariant only reads the intervals and the clock. -/
theorem inv_same (t0 : ℤ) (a b : SchedState) (h : IntervalsInv t0 a)
    (hi : b.intervals = a.intervals) (hc : b.clock = a.clock) :
    IntervalsInv t0 b := by
  unfold IntervalsInv at *
  rw [hi, hc]
  exact h

theorem inv_applyBreakIfNeeded (t0 : ℤ) (st : SchedState) (h : IntervalsInv t0 st) :
    IntervalsInv t0 (applyBreakIfNeeded st) := by
  unfold applyBreakIfNeeded
  split
  · exact inv_applyBreak _ _ h
  · exact h

theorem inv_applyDailyResetIfNeeded (t0 : ℤ) (st : SchedState) (h : IntervalsInv t0 st) :
    IntervalsInv t0 (applyDailyResetIfNeeded st) := by
  unfold applyDailyResetIfNeeded
  split
  · exact inv_applyDailyReset _ _ h
  · exact h

theorem inv_applyCycleRestartIfNeeded (t0 : ℤ) (st : SchedState) (h : IntervalsInv t0 st) :
    IntervalsInv t0 (applyCycleRestartIfNeeded st) := by
  unfold applyCycleRestartIfNeeded
  split
  · exact inv_applyCycleRestart _ _ h
  · exact h

theorem inv_applyStops (t0 : ℤ) (st : SchedState) (h : IntervalsInv t0 st) :
    IntervalsInv t0 (applyStops st) :=
  inv_applyCycleRestartIfNeeded _ _ (inv_applyDailyResetIfNeeded _ _
    (inv_applyBreakIfNeeded _ _ h))

theorem inv_driveLoop (t0 : ℤ) (f : ℕ) (st : SchedState) (remaining : ℤ)
    (h : IntervalsInv t0 st) : IntervalsInv t0 (driveLoop f st remaining) := by
  induction f generalizing st remaining with
  | zero => exact inv_emitDriving t0 st remaining h
  | succ f ih =>
      unfold driveLoop
      split
      · exact h
      · exact ih _ _ (inv_emitDriving t0 _ _ (inv_applyStops t0 st h))

theorem inv_boundaryStop (t0 : ℤ) (st : SchedState) (k : SegKind)
    (h : IntervalsInv t0 st) : IntervalsInv t0 (boundaryStop st k) := by
  cases k
  · exact h
  · exact inv_emitOnDutyStop t0 _ _ _ h
  · exact inv_emitOnDutyStop t0 _ _ _ h

theorem inv_fuelCheck (t0 : ℤ) (st : SchedState) (seg : RouteSegment)
    (h : IntervalsInv t0 st) : IntervalsInv t0 (fuelCheck st seg) := by
  unfold fuelCheck
  split
  · exact inv_same t0 _ _ (inv_emitOnDutyStop t0 st fuelStopDurSec _ h) rfl rfl
  · exact inv_same t0 st _ h rfl rfl

theorem inv_processSegment (t0 : ℤ) (st : SchedState) (seg : RouteSegment)
    (h : IntervalsInv t0 st) : IntervalsInv t0 (processSegment st seg) :=
  inv_fuelCheck t0 _ seg (inv_boundaryStop t0 _ seg.kind
    (inv_driveLoop t0 _ st _ h))

theorem inv_foldl (t0 : ℤ) (route : List RouteSegment) (st : SchedState)
    (h : IntervalsInv t0 st) :
    IntervalsInv t0 (route.foldl processSegment st) := by
  induction route generalizing st with
  | nil => exact h
  | cons seg rest ih => exact ih _ (inv_processSegment t0 st seg h)

/-- C3: for every successfully planned trip, the duty intervals form a
partition of the trip's time span — every interval satisfies `stop > start`,
consecutive intervals abut (no gaps, no overlaps), and every second of the
span from the supplied start timestamp to the trip end is covered by exactly
one interval. -/
theorem planTrip_intervals_partition (route : List RouteSegment) (h0 t0 : ℤ)
    (res : TripPlanResult) (h : planTrip route h0 t0 = Except.ok res) :
    ∃ tEnd, ChainFrom t0 res.intervals tEnd ∧
      (∀ i ∈ res.intervals, i.start < i.stop) ∧
      (∀ x : ℤ, t0 ≤ x → x < tEnd →
        ∃! i, i ∈ res.intervals ∧ i.start ≤ x ∧ x < i.stop) := by
  unfold planTrip at h
  split at h
  case isFalse => cases h
  case isTrue hv =>
      have hinv : IntervalsInv t0 (route.foldl processSegment (initState h0 t0)) :=
        inv_foldl t0 route (initState h0 t0) (revChain_nil.2 rfl)
      have hres : res.intervals =
          (route.foldl processSegment (initState h0 t0)).intervals.reverse := by
        cases h
        rfl
      have hchain : ChainFrom t0 res.intervals
          (route.foldl processSegment (initState h0 t0)).clock := by
        rw [hres]
        exact (revChain_iff_chainFrom _ _ _).1 hinv
      refine ⟨_, hchain, ?_, ?_⟩
      · intro i hi
        exact (chainFrom_mem_bounds _ _ _ hchain i hi).2.1
      · intro x hx1 hx2
        exact chainFrom_coverage _ _ _ hchain x hx1 hx2

/-- A small concrete valid route: one pickup segment and one dropoff
segment, an hour's drive each, 50 miles each. -/
def wRoute : List RouteSegment :=
  [⟨0, 50, 0, 3600, .pickup⟩, ⟨50, 100, 3600, 7200, .dropoff⟩]

/-- Witness for `planTrip_intervals_partition` at the concrete route
`wRoute` with zero starting cycle hours and start time 0. -/
theorem planTrip_intervals_partition_witness :
    ∃ res, planTrip wRoute 0 0 = Except.ok res ∧
      ∃ tEnd, ChainFrom 0 res.intervals tEnd ∧
        (∀ i ∈ res.intervals, i.start < i.stop) ∧
        (∀ x : ℤ, 0 ≤ x → x < tEnd →
          ∃! i, i ∈ res.intervals ∧ i.start ≤ x ∧ x < i.stop) :=
  ⟨_, rfl, planTrip_intervals_partition wRoute 0 0 _ rfl⟩

/-- A route demanding two hours of driving; with 69 starting cycle hours it
exceeds the 70-hour budget mid-trip. -/
def infeasibleRoute : List RouteSegment :=
  [⟨0, 60, 0, 3600, .pickup⟩, ⟨60, 120, 3600, 7200, .dropoff⟩]

/-- C7: trip planning always returns a `TripPlanResult` for structurally
valid input — regulatory infeasibility is surfaced as a violation attached
to an otherwise complete result, never an exception — and fails immediately
with no partial result exactly on malformed route input.  The third
conjunct exhibits the spec's concrete scenario: 69 starting cycle hours
with a two-hour drive yields a complete plan carrying a recorded cycle
violation. -/
theorem planTrip_total_except_malformed :
    (∀ route : List RouteSegment, ∀ h0 t0 : ℤ, validRoute route = true →
      ∃ res, planTrip route h0 t0 = Except.ok res) ∧
    (∀ route : List RouteSegment, ∀ h0 t0 : ℤ, validRoute route = false →
      planTrip route h0 t0 = Except.error PlanError.malformedRoute) ∧
    (∃ res, planTrip infeasibleRoute (69 * 3600) 0 = Except.ok res ∧
      res.violations ≠ []) := by
  refine ⟨?_, ?_, ?_⟩
  · intro route h0 t0 hv
    exact ⟨_, by unfold planTrip; rw [hv]; simp; rfl⟩
  · intro route h0 t0 hv
    unfold planTrip
    rw [hv]
    simp
  · exact ⟨_, rfl, by decide⟩

/-- Witness for `planTrip_total_except_malformed`: the valid route `wRoute`
yields a result, and the empty route (malformed) is rejected. -/
theorem planTrip_total_except_malformed_witness :
    (∃ res, planTrip wRoute 0 0 = Except.ok res) ∧
    planTrip [] 0 0 = Except.error PlanError.malformedRoute :=
  ⟨planTrip_total_except_malformed.1 wRoute 0 0 (by decide),
   planTrip_total_except_malformed.2.1 [] 0 0 (by decide)⟩

/-! ## Fuel-stop placement (spec section 4.2, trigger 1) -/

/-- Length of a segment in miles. -/
def segLen (seg : RouteSegment) : ℤ := seg.endDist - seg.startDist

/-- Total route distance in miles. -/
def totalDist (r : List RouteSegment) : ℤ := (r.map segLen).sum

/-- The fuel bookkeeping a segment boundary performs, as a pure step on the
pair (distance since last fuel stop, reverse-ordered stop mile marks):
exactly the update `fuelCheck` applies to its two fuel fields. -/
def fuelStep (p : ℤ × List ℤ) (seg : RouteSegment) : ℤ × List ℤ :=
  if fuelDistMiles ≤ p.1 + segLen seg then (0, seg.endDist :: p.2)
  else (p.1 + segLen seg, p.2)

/-- Route segments chain forward from cumulative position `c` with
non-negative lengths. -/
def ChainedFrom (c : ℤ) : List RouteSegment → Prop
  | [] => True
  | s :: rest => s.startDist = c ∧ s.startDist ≤ s.endDist ∧ ChainedFrom s.endDist rest

/-- Consecutive fuel stops (chronological mile marks) are at least the fuel
threshold apart, the first being measured from `prev`. -/
def gapsLowerOk (prev : ℤ) : List ℤ → Bool
  | [] => true
  | p :: rest => decide (prev + fuelDistMiles ≤ p) && gapsLowerOk p rest

/-- Consecutive fuel stops are strictly within `bound` of the previous stop
(or of `prev` for the first). -/
def gapsUpperOk (bound prev : ℤ) : List ℤ → Bool
  | [] => true
  | p :: rest => decide (p < prev + bound) && gapsUpperOk bound p rest

/-- Fuel-stop gaps never exceeding twice the threshold: the window the
claim asserts ("at or after every 1000 cumulative miles and before the next
1000-mile mark is exceeded"), stated from the spec's words for comparison
with the modelled scheduler. -/
def fuelClaimWindowOk (stops : List ℤ) : Bool :=
  gapsLowerOk 0 stops && gapsUpperOk (2 * fuelDistMiles + 1) 0 stops

/-- `emitInterval` leaves the fuel fields unchanged. -/
theorem fuelFields_emitInterval (st : SchedState) (d : ℤ) (s : DutyState) (r : String) :
    (emitInterval st d s r).distSinceFuel = st.distSinceFuel ∧
      (emitInterval st d s r).fuelStops = st.fuelStops := by
  unfold emitInterval
  split
  · exact ⟨rfl, rfl⟩
  · exact ⟨rfl, rfl⟩

theorem fuelFields_emitDriving (st : SchedState) (d : ℤ) :
    (emitDriving st d).distSinceFuel = st.distSinceFuel ∧
      (emitDriving st d).fuelStops = st.fuelStops :=
  fuelFields_emitInterval st d .driving "Driving"

theorem fuelFields_emitOnDutyStop (st : SchedState) (d : ℤ) (r : String) :
    (emitOnDutyStop st d r).distSinceFuel = st.distSinceFuel ∧
      (emitOnDutyStop st d r).fuelStops = st.fuelStops :=
  fuelFields_emitInterval st d .on_duty_not_driving r

theorem fuelFields_applyStops (st : SchedState) :
    (applyStops st).distSinceFuel = st.distSinceFuel ∧
      (applyStops st).fuelStops = st.fuelStops := by
  unfold applyStops applyBreakIfNeeded applyDailyResetIfNeeded applyCycleRestartIfNeeded
    applyBreak applyDailyReset applyCycleRestart
  split
  all_goals split
  all_goals split
  all_goals
    simp only [(fuelFields_emitInterval _ _ _ _).1, (fuelFields_emitInterval _ _ _ _).2]
  all_goals trivial

theorem fuelFields_driveLoop (f : ℕ) (st : SchedState) (remaining : ℤ) :
    (driveLoop f st remaining).distSinceFuel = st.distSinceFuel ∧
      (driveLoop f st remaining).fuelStops = st.fuelStops := by
  induction f generalizing st remaining with
  | zero => exact fuelFields_emitDriving st remaining
  | succ f ih =>
      unfold driveLoop
      split
      · exact ⟨rfl, rfl⟩
      · refine ⟨(ih _ _).1.trans ?_, (ih _ _).2.trans ?_⟩
        · exact (fuelFields_emitDriving _ _).1.trans (fuelFields_applyStops st).1
        · exact (fuelFields_emitDriving _ _).2.trans (fuelFields_applyStops st).2

theorem fuelFields_boundaryStop (st : SchedState) (k : SegKind) :
    (boundaryStop st k).distSinceFuel = st.distSinceFuel ∧
      (boundaryStop st k).fuelStops = st.fuelStops := by
  cases k
  · exact ⟨rfl, rfl⟩
  · exact fuelFields_emitOnDutyStop st _ _
  · exact fuelFields_emitOnDutyStop st _ _

/-- One segment's effect on the fuel fields is exactly `fuelStep`. -/
theorem processSegment_fuelProj (st : SchedState) (seg : RouteSegment) :
    ((processSegment st seg).distSinceFuel, (processSegment st seg).fuelStops) =
      fuelStep (st.distSinceFuel, st.fuelStops) seg := by
  unfold processSegment fuelCheck fuelStep segLen
  have hb := fuelFields_boundaryStop
    (driveLoop ((seg.endTime - seg.startTime).toNat + 1) st (seg.endTime - seg.startTime))
    seg.kind
  have hd := fuelFields_driveLoop ((seg.endTime - seg.startTime).toNat + 1) st
    (seg.endTime - seg.startTime)
  rw [hb.1, hb.2, hd.1, hd.2]
  split
  · simp only [(fuelFields_emitOnDutyStop _ _ _).1, (fuelFields_emitOnDutyStop _ _ _).2,
      hb.1, hb.2, hd.1, hd.2]
  · simp

/-- The whole fold's fuel fields are the pure `fuelStep` fold. -/
theorem foldl_fuelProj (route : List RouteSegment) (st : SchedState) :
    ((route.foldl processSegment st).distSinceFuel,
      (route.foldl processSegment st).fuelStops) =
      route.foldl fuelStep (st.distSinceFuel, st.fuelStops) := by
  induction route generalizing st with
  | nil => rfl
  | cons seg rest ih =>
      simp only [List.foldl_cons]
      rw [ih (processSegment st seg), processSegment_fuelProj]

theorem chainedFrom_cons {c : ℤ} {s : RouteSegment} {rest : List RouteSegment} :
    ChainedFrom c (s :: rest) ↔
      s.startDist = c ∧ s.startDist ≤ s.endDist ∧ ChainedFrom s.endDist rest :=
  Iff.rfl

theorem fuelStep_fire {p : ℤ × List ℤ} {seg : RouteSegment}
    (h : fuelDistMiles ≤ p.1 + segLen seg) :
    fuelStep p seg = (0, seg.endDist :: p.2) := by
  simp [fuelStep, h]

theorem fuelStep_skip {p : ℤ × List ℤ} {seg : RouteSegment}
    (h : ¬ fuelDistMiles ≤ p.1 + segLen seg) :
    fuelStep p seg = (p.1 + segLen seg, p.2) := by
  simp [fuelStep, h]

theorem gapsLowerOk_cons (prev p : ℤ) (l : List ℤ) :
    gapsLowerOk prev (p :: l) =
      (decide (prev + fuelDistMiles ≤ p) && gapsLowerOk p l) := rfl

theorem gapsUpperOk_cons (bound prev p : ℤ) (l : List ℤ) :
    gapsUpperOk bound prev (p :: l) =
      (decide (p < prev + bound) && gapsUpperOk bound p l) := rfl

theorem sumLen_nonneg (r : List RouteSegment) (c : ℤ) (h : ChainedFrom c r) :
    0 ≤ (r.map segLen).sum := by
  induction r generalizing c with
  | nil => simp
  | cons s rest ih =>
      obtain ⟨h1, h2, h3⟩ := chainedFrom_cons.1 h
      have := ih s.endDist h3
      have hlen : segLen s = s.endDist - s.startDist := rfl
      simp only [List.map_cons, List.sum_cons]
      omega

/-- Fuel stops accumulate independently of the stops already recorded. -/
theorem fuelFold_acc (r : List RouteSegment) (d : ℤ) (acc : List ℤ) :
    (r.foldl fuelStep (d, acc)).1 = (r.foldl fuelStep (d, [])).1 ∧
      (r.foldl fuelStep (d, acc)).2 = (r.foldl fuelStep (d, [])).2 ++ acc := by
  induction r generalizing d acc with
  | nil => simp
  | cons s rest ih =>
      simp only [List.foldl_cons]
      by_cases hc : fuelDistMiles ≤ d + segLen s
      · rw [fuelStep_fire (p := (d, acc)) (by simpa using hc),
          fuelStep_fire (p := (d, [])) (by simpa using hc)]
        have h1 := ih 0 (s.endDist :: acc)
        have h2 := ih 0 [s.endDist]
        refine ⟨h1.1.trans h2.1.symm, ?_⟩
        rw [h1.2, h2.2]
        simp
      · rw [fuelStep_skip (p := (d, acc)) (by simpa using hc),
          fuelStep_skip (p := (d, [])) (by simpa using hc)]
        exact ih _ acc

/-- Main invariant of the fuel fold over a chained route starting at
cumulative position `c` with `d0` miles since the last fuel stop, placed at
mile `last`: gaps between consecutive stops are at least the threshold and
(given a bound on segment lengths) less than threshold plus that bound; the
running distance stays in `[0, threshold)`; and every recorded stop is a
boundary position within the route span. -/
theorem fuelFold_main (r : List RouteSegment) (c d0 last : ℤ)
    (hr : ChainedFrom c r) (h0 : 0 ≤ d0) (h1 : d0 < fuelDistMiles)
    (hlast : d0 = c - last) :
    gapsLowerOk last (r.foldl fuelStep (d0, [])).2.reverse = true ∧
    (∀ L : ℤ, (∀ s ∈ r, segLen s ≤ L) →
      gapsUpperOk (fuelDistMiles + L) last (r.foldl fuelStep (d0, [])).2.reverse = true) ∧
    0 ≤ (r.foldl fuelStep (d0, [])).1 ∧
    (r.foldl fuelStep (d0, [])).1 < fuelDistMiles ∧
    (r.foldl fuelStep (d0, [])).1 =
      (c + (r.map segLen).sum) - (r.foldl fuelStep (d0, [])).2.reverse.getLastD last ∧
    (∀ p ∈ (r.foldl fuelStep (d0, [])).2,
      p ≤ c + (r.map segLen).sum ∧ ∃ s ∈ r, p = s.endDist) := by
  induction r generalizing c d0 last with
  | nil =>
      refine ⟨rfl, fun L _ => rfl, h0, h1, ?_, ?_⟩
      · simp only [List.foldl_nil, List.map_nil, List.sum_nil, List.reverse_nil,
          List.getLastD_nil]
        omega
      · intro p hp
        cases hp
  | cons s rest ih =>
      obtain ⟨hs1, hs2, hr'⟩ := chainedFrom_cons.1 hr
      have hsum := sumLen_nonneg rest s.endDist hr'
      have hlen : segLen s = s.endDist - s.startDist := rfl
      have hsummap : (List.map segLen (s :: rest)).sum =
          segLen s + (List.map segLen rest).sum := by simp
      simp only [List.foldl_cons]
      by_cases hc : fuelDistMiles ≤ d0 + segLen s
      · have hstep : fuelStep (d0, []) s = ((0 : ℤ), [s.endDist]) := by
          rw [fuelStep_fire (by simpa using hc)]
        rw [hstep]
        have hacc := fuelFold_acc rest 0 [s.endDist]
        have IH := ih s.endDist 0 s.endDist hr' le_rfl
          (by unfold fuelDistMiles; omega) (by omega)
        have hlow : last + fuelDistMiles ≤ s.endDist := by omega
        refine ⟨?_, ?_, ?_, ?_, ?_, ?_⟩
        · rw [hacc.2, List.reverse_append, List.reverse_singleton,
            List.singleton_append, gapsLowerOk_cons, Bool.and_eq_true,
            decide_eq_true_eq]
          exact ⟨hlow, IH.1⟩
        · intro L hL
          have hsL : segLen s ≤ L := hL s (List.mem_cons_self s rest)
          rw [hacc.2, List.reverse_append, List.reverse_singleton,
            List.singleton_append, gapsUpperOk_cons, Bool.and_eq_true,
            decide_eq_true_eq]
          refine ⟨by omega, IH.2.1 L (fun s' hs' => hL s' (List.mem_cons_of_mem s hs'))⟩
        · rw [hacc.1]; exact IH.2.2.1
        · rw [hacc.1]; exact IH.2.2.2.1
        · rw [hacc.1, hacc.2, List.reverse_append, List.reverse_singleton,
            List.singleton_append, List.getLastD_cons, hsummap]
          have h5 := IH.2.2.2.2.1
          omega
        · intro p hp
          rw [hacc.2] at hp
          rcases List.mem_append.1 hp with hp | hp
          · obtain ⟨hple, s', hs', rfl⟩ := IH.2.2.2.2.2 p hp
            refine ⟨?_, s', List.mem_cons_of_mem s hs', rfl⟩
            rw [hsummap]
            omega
          · rw [List.mem_singleton] at hp
            subst hp
            refine ⟨?_, s, List.mem_cons_self s rest, rfl⟩
            rw [hsummap]
            omega
      · have hstep : fuelStep (d0, []) s = (d0 + segLen s, ([] : List ℤ)) := by
          rw [fuelStep_skip (by simpa using hc)]
        rw [hstep]
        have IH := ih s.endDist (d0 + segLen s) last hr'
          (by omega) (by omega) (by omega)
        refine ⟨IH.1, ?_, IH.2.2.1, IH.2.2.2.1, ?_, ?_⟩
        · intro L hL
          exact IH.2.1 L (fun s' hs' => hL s' (List.mem_cons_of_mem s hs'))
        · rw [hsummap]
          have h5 := IH.2.2.2.2.1
          omega
        · intro p hp
          obtain ⟨hple, s', hs', rfl⟩ := IH.2.2.2.2.2 p hp
          refine ⟨?_, s', List.mem_cons_of_mem s hs', rfl⟩
          rw [hsummap]
          omega

theorem chainedFrom_of_chainOk : ∀ (r : List RouteSegment) (c : ℤ),
    chainOk r = true →
    (match r with
     | [] => True
     | s :: _ => s.startDist = c) →
    ChainedFrom c r := by
  intro r
  induction r with
  | nil => intro c _ _; trivial
  | cons s rest ih =>
      intro c hchain hhead
      cases rest with
      | nil =>
          simp only [chainOk, Bool.and_eq_true, decide_eq_true_eq] at hchain
          exact ⟨hhead, hchain.1, trivial⟩
      | cons s' rest' =>
          simp only [chainOk, Bool.and_eq_true, decide_eq_true_eq] at hchain
          exact ⟨hhead, hchain.1.1.1.1, ih s.endDist hchain.2 hchain.1.1.2⟩

theorem validRoute_chained (r : List RouteSegment) (h : validRoute r = true) :
    ChainedFrom 0 r := by
  cases r with
  | nil => simp [validRoute] at h
  | cons s rest =>
      simp only [validRoute, Bool.and_eq_true, decide_eq_true_eq] at h
      exact chainedFrom_of_chainOk (s :: rest) 0 h.1.1.1.2 h.1.1.1.1.1

/-- Every recorded fuel stop has a matching 30-minute on-duty fuel interval
among the emitted intervals. -/
def FuelIntervalsInv (st : SchedState) : Prop :=
  ∀ p ∈ st.fuelStops, ∃ i ∈ st.intervals,
    i.state = DutyState.on_duty_not_driving ∧ i.stop - i.start = fuelStopDurSec ∧
    i.remark = "Fuel stop (30 minutes)"

/-- A step that keeps the fuel stops and only grows the interval list. -/
def StepOk (a b : SchedState) : Prop :=
  b.fuelStops = a.fuelStops ∧ ∀ i ∈ a.intervals, i ∈ b.intervals

theorem stepOk_trans {a b c : SchedState} (h1 : StepOk a b) (h2 : StepOk b c) :
    StepOk a c :=
  ⟨h2.1.trans h1.1, fun i hi => h2.2 i (h1.2 i hi)⟩

theorem fii_of_stepOk {a b : SchedState} (h : FuelIntervalsInv a) (hs : StepOk a b) :
    FuelIntervalsInv b := by
  intro p hp
  rw [hs.1] at hp
  obtain ⟨i, hi, hprops⟩ := h p hp
  exact ⟨i, hs.2 i hi, hprops⟩

theorem stepOk_emitInterval (st : SchedState) (d : ℤ) (s : DutyState) (r : String) :
    StepOk st (emitInterval st d s r) := by
  refine ⟨(fuelFields_emitInterval st d s r).2, ?_⟩
  unfold emitInterval
  split
  · exact fun i hi => hi
  · exact fun i hi => List.mem_cons_of_mem _ hi

theorem stepOk_emitDriving (st : SchedState) (d : ℤ) :
    StepOk st (emitDriving st d) :=
  stepOk_emitInterval st d .driving "Driving"

theorem stepOk_emitOnDutyStop (st : SchedState) (d : ℤ) (r : String) :
    StepOk st (emitOnDutyStop st d r) :=
  stepOk_emitInterval st d .on_duty_not_driving r

theorem stepOk_applyStops (st : SchedState) : StepOk st (applyStops st) := by
  unfold applyStops applyBreakIfNeeded applyDailyResetIfNeeded applyCycleRestartIfNeeded
    applyBreak applyDailyReset applyCycleRestart
  split
  all_goals split
  all_goals split
  all_goals
    first
    | exact stepOk_trans (stepOk_emitInterval _ _ _ _) (stepOk_emitInterval _ _ _ _)
    | exact stepOk_emitInterval _ _ _ _
    | exact ⟨rfl, fun i hi => hi⟩

theorem stepOk_driveLoop (f : ℕ) (st : SchedState) (remaining : ℤ) :
    StepOk st (driveLoop f st remaining) := by
  induction f generalizing st remaining with
  | zero => exact stepOk_emitDriving st remaining
  | succ f ih =>
      unfold driveLoop
      split
      · exact ⟨rfl, fun i hi => hi⟩
      · exact stepOk_trans (stepOk_trans (stepOk_applyStops st)
          (stepOk_emitDriving _ _)) (ih _ _)

theorem stepOk_boundaryStop (st : SchedState) (k : SegKind) :
    StepOk st (boundaryStop st k) := by
  cases k
  · exact ⟨rfl, fun i hi => hi⟩
  · exact stepOk_emitOnDutyStop st _ _
  · exact stepOk_emitOnDutyStop st _ _

theorem emitOnDutyStop_fuelDur_intervals (st : SchedState) (r : String) :
    (emitOnDutyStop st fuelStopDurSec r).intervals =
      ⟨st.clock, st.clock + fuelStopDurSec, DutyState.on_duty_not_driving, r⟩ ::
        st.intervals := by
  unfold emitOnDutyStop emitInterval
  rw [if_neg (show ¬ (fuelStopDurSec ≤ 0) by decide)]

theorem fii_fuelCheck (st : SchedState) (seg : RouteSegment)
    (h : FuelIntervalsInv st) : FuelIntervalsInv (fuelCheck st seg) := by
  unfold fuelCheck
  split
  · intro p hp
    have hf : (emitOnDutyStop st fuelStopDurSec "Fuel stop (30 minutes)").fuelStops =
        st.fuelStops := (fuelFields_emitOnDutyStop st _ _).2
    rcases List.mem_cons.1 hp with rfl | hp
    · refine ⟨⟨st.clock, st.clock + fuelStopDurSec, .on_duty_not_driving,
        "Fuel stop (30 minutes)"⟩, ?_, rfl,
        show st.clock + fuelStopDurSec - st.clock = fuelStopDurSec by omega, rfl⟩
      show _ ∈ (emitOnDutyStop st fuelStopDurSec "Fuel stop (30 minutes)").intervals
      rw [emitOnDutyStop_fuelDur_intervals]
      exact List.mem_cons_self _ _
    · rw [hf] at hp
      obtain ⟨i, hi, hprops⟩ := h p hp
      refine ⟨i, ?_, hprops⟩
      show _ ∈ (emitOnDutyStop st fuelStopDurSec "Fuel stop (30 minutes)").intervals
      exact (stepOk_emitOnDutyStop st _ _).2 i hi
  · intro p hp
    exact h p hp

theorem fii_processSegment (st : SchedState) (seg : RouteSegment)
    (h : FuelIntervalsInv st) : FuelIntervalsInv (processSegment st seg) :=
  fii_fuelCheck _ seg (fii_of_stepOk h (stepOk_trans (stepOk_driveLoop _ st _)
    (stepOk_boundaryStop _ seg.kind)))

theorem fii_foldl (route : List RouteSegment) (st : SchedState)
    (h : FuelIntervalsInv st) :
    FuelIntervalsInv (route.foldl processSegment st) := by
  induction route generalizing st with
  | nil => exact h
  | cons seg rest ih => exact ih _ (fii_processSegment st seg h)

/-- A valid route containing a single 2500-mile transit segment. -/
def cexRoute : List RouteSegment :=
  [⟨0, 10, 0, 600, .pickup⟩, ⟨10, 2510, 600, 150600, .transit⟩,
   ⟨2510, 2520, 150600, 151200, .dropoff⟩]

set_option maxRecDepth 10000 in
/-- C5 counterexample: the claim says every fuel stop falls at or after
1000 cumulative miles since the last one and before the next 1000-mile mark
is exceeded.  Because the modelled scheduler (following the spec) defers the
stop to the next segment boundary, a 2500-mile segment gets its fuel stop at
mile 2510 — far past the 2000-mile mark — so the claimed window is
violated. -/
theorem fuel_stop_window_cex :
    (planTrip cexRoute 0 0).map (fun r => r.fuelStops) = Except.ok [2510] ∧
    (planTrip cexRoute 0 0).map (fun r => fuelClaimWindowOk r.fuelStops) =
      Except.ok false := by
  decide

/-- C5 (amended): for every successfully planned trip, consecutive fuel
stops are at least 1000 cumulative miles apart; a trip shorter than 1000
miles contains no fuel stop; every fuel stop sits at a segment boundary
(never mid-segment) and is a fixed 30-minute on-duty-not-driving period;
and when every segment is at most `L` miles long, each fuel stop falls
before the 1000-plus-`L` mark past the previous stop — in particular, with
segments at most 1000 miles, before the next 1000-mile mark is exceeded. -/
theorem fuel_stops_spacing (route : List RouteSegment) (h0 t0 : ℤ)
    (res : TripPlanResult) (h : planTrip route h0 t0 = Except.ok res) :
    gapsLowerOk 0 res.fuelStops = true ∧
    (∀ L : ℤ, (∀ s ∈ route, segLen s ≤ L) →
      gapsUpperOk (fuelDistMiles + L) 0 res.fuelStops = true) ∧
    (totalDist route < fuelDistMiles → res.fuelStops = []) ∧
    (∀ p ∈ res.fuelStops, ∃ s ∈ route, p = s.endDist) ∧
    (∀ p ∈ res.fuelStops, ∃ i ∈ res.intervals,
      i.state = DutyState.on_duty_not_driving ∧ i.stop - i.start = fuelStopDurSec ∧
      i.remark = "Fuel stop (30 minutes)") := by
  unfold planTrip at h
  split at h
  case isFalse => cases h
  case isTrue hv =>
      have hchained := validRoute_chained route hv
      have hproj := foldl_fuelProj route (initState h0 t0)
      have hfuels : (route.foldl processSegment (initState h0 t0)).fuelStops =
          (route.foldl fuelStep (0, [])).2 := congrArg Prod.snd hproj
      have main := fuelFold_main route 0 0 0 hchained le_rfl (by decide) (by omega)
      have hres : res.fuelStops = (route.foldl fuelStep (0, [])).2.reverse := by
        cases h
        show (route.foldl processSegment (initState h0 t0)).fuelStops.reverse = _
        rw [hfuels]
      have hresint : res.intervals =
          (route.foldl processSegment (initState h0 t0)).intervals.reverse := by
        cases h
        rfl
      refine ⟨?_, ?_, ?_, ?_, ?_⟩
      · rw [hres]; exact main.1
      · intro L hL
        rw [hres]
        exact main.2.1 L hL
      · intro hshort
        rw [hres]
        rcases hrev : (route.foldl fuelStep (0, [])).2.reverse with _ | ⟨p, l⟩
        · rfl
        · exfalso
          have hlow := main.1
          rw [hrev, gapsLowerOk_cons, Bool.and_eq_true, decide_eq_true_eq] at hlow
          have hmem : p ∈ (route.foldl fuelStep (0, [])).2 := by
            rw [← List.mem_reverse, hrev]
            exact List.mem_cons_self p l
          have := (main.2.2.2.2.2 p hmem).1
          unfold totalDist at hshort
          omega
      · intro p hp
        rw [hres, List.mem_reverse] at hp
        exact (main.2.2.2.2.2 p hp).2
      · intro p hp
        have hfii : FuelIntervalsInv (route.foldl processSegment (initState h0 t0)) :=
          fii_foldl route (initState h0 t0) (fun q hq => absurd hq (by simp [initState]))
        rw [hres, List.mem_reverse, ← hfuels] at hp
        obtain ⟨i, hi, hprops⟩ := hfii p hp
        refine ⟨i, ?_, hprops⟩
        rw [hresint, List.mem_reverse]
        exact hi

/-- A route segmented at 600-mile boundaries, total 1800 miles. -/
def okFuelRoute : List RouteSegment :=
  [⟨0, 600, 0, 36000, .pickup⟩, ⟨600, 1200, 36000, 72000, .transit⟩,
   ⟨1200, 1800, 72000, 108000, .dropoff⟩]

set_option maxRecDepth 10000 in
/-- Witness for `fuel_stops_spacing` at a concrete route with 600-mile
segments: its single fuel stop is in the claimed window. -/
theorem fuel_stops_spacing_witness :
    ∃ res, planTrip okFuelRoute 0 0 = Except.ok res ∧
      gapsLowerOk 0 res.fuelStops = true ∧
      gapsUpperOk (fuelDistMiles + 600) 0 res.fuelStops = true ∧
      res.fuelStops = [1200] :=
  ⟨_, rfl, (fuel_stops_spacing okFuelRoute 0 0 _ rfl).1,
    (fuel_stops_spacing okFuelRoute 0 0 _ rfl).2.1 600 (by decide), by decide⟩

/-! ## Midnight Partitioner (modelled from the spec, section 4.3) -/

/-- Seconds per calendar day. -/
def daySec : ℤ := 86400

/-- Calendar-day index of a timestamp (floor division; `Int.ediv` floors for
a positive divisor). -/
def dayIndex (t : ℤ) : ℤ := t / daySec

/-- The next local-midnight boundary strictly after `t`'s day start. -/
def nextMidnight (t : ℤ) : ℤ := daySec * (dayIndex t + 1)

theorem lt_nextMidnight (t : ℤ) : t < nextMidnight t := by
  unfold nextMidnight dayIndex daySec
  omega

theorem nextMidnight_le (t : ℤ) : nextMidnight t ≤ t + daySec := by
  unfold nextMidnight dayIndex daySec
  omega

theorem dayIndex_nextMidnight (t : ℤ) : dayIndex (nextMidnight t) = dayIndex t + 1 := by
  unfold nextMidnight dayIndex daySec
  omega

/-- Modelled from the spec: split one duty interval at every local
calendar-day boundary it crosses, the fragments abutting at each boundary,
all retaining the original status and remark, the final fragment inheriting
the original end time (spec section 4.3, applied at each crossed boundary).
The recursion is bounded by a fuel parameter; the day-count bound used by
`splitInterval` always suffices. -/
def splitIntervalFuel : ℕ → DutyInterval → List DutyInterval
  | 0, i => [i]
  | f + 1, i =>
      if i.stop ≤ nextMidnight i.start then [i]
      else ⟨i.start, nextMidnight i.start, i.state, i.remark⟩ ::
        splitIntervalFuel f ⟨nextMidnight i.start, i.stop, i.state, i.remark⟩

/-- Split a duty interval at the calendar-day boundaries it crosses. -/
def splitInterval (i : DutyInterval) : List DutyInterval :=
  splitIntervalFuel ((dayIndex i.stop - dayIndex i.start).toNat + 1) i

/-- All fragments of an interval list, in order. -/
def partitionIntervals (l : List DutyInterval) : List DutyInterval :=
  (l.map splitInterval).flatten

/-- Total duration with duty status `s` over an interval list, in seconds. -/
def statusDur (s : DutyState) (l : List DutyInterval) : ℤ :=
  (l.map (fun i => if i.state = s then i.stop - i.start else 0)).sum

/-- Modelled from the spec: `LogSheetDay` (spec section 3) — calendar date,
the day's ordered interval list, and per-status totals. -/
structure LogSheetDay where
  day : ℤ
  intervals : List DutyInterval
  drivingSec : ℤ
  onDutySec : ℤ
  offDutySec : ℤ
  sleeperSec : ℤ
deriving Repr, DecidableEq

/-- Build one day's log sheet from its (already split) interval run. -/
def mkDay (run : List DutyInterval) : LogSheetDay :=
  ⟨((run.head?.map (fun i => dayIndex i.start)).getD 0), run,
   statusDur .driving run, statusDur .on_duty_not_driving run,
   statusDur .off_duty run, statusDur .sleeper_berth run⟩

/-- Group consecutive fragments by day index (fragments of one trip arrive
in chronological order, so a day's fragments are consecutive). -/
def groupRunsAux (cur : List DutyInterval) (d : ℤ) :
    List DutyInterval → List (List DutyInterval)
  | [] => [cur.reverse]
  | i :: rest =>
      if dayIndex i.start = d then groupRunsAux (i :: cur) d rest
      else cur.reverse :: groupRunsAux [i] (dayIndex i.start) rest

/-- Group a fragment list into per-day runs. -/
def groupRuns : List DutyInterval → List (List DutyInterval)
  | [] => []
  | i :: rest => groupRunsAux [i] (dayIndex i.start) rest

/-- Modelled from the spec: `partition(intervals) -> orderedLogSheetDay
list` (spec section 4.3): split every interval at the day boundaries it
crosses, then group the fragments into one `LogSheetDay` per calendar day. -/
def partitionDays (l : List DutyInterval) : List LogSheetDay :=
  (groupRuns (partitionIntervals l)).map mkDay

theorem statusDur_nil (s : DutyState) : statusDur s [] = 0 := rfl

theorem statusDur_cons (s : DutyState) (i : DutyInterval) (l : List DutyInterval) :
    statusDur s (i :: l) =
      (if i.state = s then i.stop - i.start else 0) + statusDur s l := by
  simp [statusDur]

theorem statusDur_append (s : DutyState) (a b : List DutyInterval) :
    statusDur s (a ++ b) = statusDur s a + statusDur s b := by
  simp [statusDur]

/-- Splitting preserves per-status duration regardless of fuel. -/
theorem statusDur_splitIntervalFuel (f : ℕ) (i : DutyInterval) (s : DutyState) :
    statusDur s (splitIntervalFuel f i) =
      (if i.state = s then i.stop - i.start else 0) := by
  induction f generalizing i with
  | zero =>
      simp [splitIntervalFuel, statusDur_cons, statusDur_nil]
  | succ f ih =>
      unfold splitIntervalFuel
      split
      · simp [statusDur_cons, statusDur_nil]
      · rw [statusDur_cons, ih]
        dsimp only
        by_cases hs : i.state = s
        · rw [if_pos hs, if_pos hs, if_pos hs]
          omega
        · rw [if_neg hs, if_neg hs, if_neg hs]
          omega

theorem statusDur_splitInterval (i : DutyInterval) (s : DutyState) :
    statusDur s (splitInterval i) =
      (if i.state = s then i.stop - i.start else 0) :=
  statusDur_splitIntervalFuel _ i s

theorem statusDur_partitionIntervals (l : List DutyInterval) (s : DutyState) :
    statusDur s (partitionIntervals l) = statusDur s l := by
  induction l with
  | nil => rfl
  | cons i rest ih =>
      unfold partitionIntervals at *
      simp only [List.map_cons, List.flatten_cons]
      rw [statusDur_append, ih, statusDur_splitInterval, statusDur_cons]

theorem flatten_groupRunsAux (l : List DutyInterval) :
    ∀ (cur : List DutyInterval) (d : ℤ),
      (groupRunsAux cur d l).flatten = cur.reverse ++ l := by
  induction l with
  | nil => intro cur d; simp [groupRunsAux]
  | cons i rest ih =>
      intro cur d
      unfold groupRunsAux
      split
      · rw [ih (i :: cur) d]
        simp
      · simp only [List.flatten_cons, ih [i] (dayIndex i.start)]
        simp

theorem flatten_groupRuns (l : List DutyInterval) : (groupRuns l).flatten = l := by
  cases l with
  | nil => rfl
  | cons i rest =>
      unfold groupRuns
      rw [flatten_groupRunsAux rest [i] (dayIndex i.start)]
      simp

/-- Concatenating all per-day interval lists gives back exactly the
fragment list. -/
theorem days_concat (l : List DutyInterval) :
    ((partitionDays l).map (fun d => d.intervals)).flatten = partitionIntervals l := by
  unfold partitionDays
  rw [List.map_map]
  have : (fun d => LogSheetDay.intervals d) ∘ mkDay = id := by
    funext run
    rfl
  rw [this, List.map_id]
  exact flatten_groupRuns _

/-- C6 counterexample: the claim says every interval crossing a local
calendar-day boundary is split into exactly two abutting fragments.  An
interval from 23:00 of day 0 to 01:00 of day 2 crosses two boundaries and
is split into three fragments, not two. -/
theorem midnight_split_two_fragments_cex :
    splitInterval ⟨82800, 176400, .off_duty, "rest"⟩ =
      [⟨82800, 86400, .off_duty, "rest"⟩, ⟨86400, 172800, .off_duty, "rest"⟩,
       ⟨172800, 176400, .off_duty, "rest"⟩] ∧
    (splitInterval ⟨82800, 176400, .off_duty, "rest"⟩).length ≠ 2 := by
  decide

/-- C6 (amended): the midnight partition is duration-preserving per duty
status — concatenating all per-day `LogSheetDay` interval lists yields the
same total duration for each status as the pre-partition list — and every
interval crossing exactly one local calendar-day boundary is split into
exactly two abutting fragments, both retaining the original status and
remark, the second inheriting the original end time (an interval crossing k
boundaries yields k+1 fragments). -/
theorem midnight_partition_duration (l : List DutyInterval) (s : DutyState)
    (i : DutyInterval) (hcr1 : nextMidnight i.start < i.stop)
    (hcr2 : i.stop ≤ nextMidnight i.start + daySec) :
    statusDur s (((partitionDays l).map (fun d => d.intervals)).flatten) =
      statusDur s l ∧
    splitInterval i =
      [⟨i.start, nextMidnight i.start, i.state, i.remark⟩,
       ⟨nextMidnight i.start, i.stop, i.state, i.remark⟩] := by
  constructor
  · rw [days_concat]
    exact statusDur_partitionIntervals l s
  · have hd1 : dayIndex i.stop - dayIndex i.start = 1 ∨
        dayIndex i.stop - dayIndex i.start = 2 := by
      unfold nextMidnight dayIndex daySec at *
      omega
    have hnm2 : nextMidnight (nextMidnight i.start) = nextMidnight i.start + daySec := by
      unfold nextMidnight dayIndex daySec
      omega
    unfold splitInterval
    rcases hd1 with hd | hd
    · rw [hd]
      show splitIntervalFuel 2 i = _
      unfold splitIntervalFuel
      rw [if_neg (by omega)]
      unfold splitIntervalFuel
      rw [if_pos (by dsimp only; rw [hnm2]; exact hcr2)]
    · rw [hd]
      show splitIntervalFuel 3 i = _
      unfold splitIntervalFuel
      rw [if_neg (by omega)]
      unfold splitIntervalFuel
      rw [if_pos (by dsimp only; rw [hnm2]; exact hcr2)]

/-- Witness for `midnight_partition_duration`: a driving interval from
01:00 to 25:00 is preserved in total driving duration, and an interval from
23:00 to 25:00 (one boundary crossed) splits into exactly two fragments. -/
theorem midnight_partition_duration_witness :
    statusDur DutyState.driving
      (((partitionDays [⟨3600, 90000, .driving, "Driving"⟩]).map
        (fun d => d.intervals)).flatten) =
      statusDur DutyState.driving [⟨3600, 90000, .driving, "Driving"⟩] ∧
    splitInterval ⟨82800, 90000, .driving, "Driving"⟩ =
      [⟨82800, 86400, .driving, "Driving"⟩, ⟨86400, 90000, .driving, "Driving"⟩] := by
  have h := midnight_partition_duration [⟨3600, 90000, .driving, "Driving"⟩]
    DutyState.driving ⟨82800, 90000, .driving, "Driving"⟩ (by decide) (by decide)
  have hnm : nextMidnight (82800 : ℤ) = 86400 := by decide
  refine ⟨h.1, ?_⟩
  have h2 := h.2
  rw [show ((⟨82800, 90000, .driving, "Driving"⟩ : DutyInterval).start) = (82800 : ℤ)
    from rfl] at h2
  simpa [hnm] using h2
